import Mathlib

/-!
Verification of the postgresql_exporter metric-collection core against its
natural-language specification.  The Go sources are shallowly embedded:

* `pkg/config/helpers.go` — version-bounded SQL resolution (`VerSQLs.Query`);
* `pkg/db/db.go`          — raw value conversion (`ToFloat64`, `ToString`)
                            and query-error classification (`Db.Exec`);
* `pkg/pgcollector/pgcollector.go` — per-job worker loop (`worker`,
                            `createMetric`, `mergeLabels`) and the
                            provisioning/dispatch phase of `Collect`.

Go slices become `List`, Go maps become association lists with Go's
map semantics (insertion overwrites, missing key yields the zero value),
Go's `int` becomes `Int`, `float64` values are modelled exactly as an
inductive of a rational number or NaN, and fallible operations return
`Option`/pair-with-error values.  An out-of-range slice index (a Go panic)
is modelled as `Option.none`.
-/

set_option autoImplicit false

namespace PgExporter

/-! ## Version resolver (pkg/config/helpers.go, `VerSQLs.Query`) -/

/-- Sentinel `NoVersion PgVersion = -1` from helpers.go. -/
def NoVersion : Int := -1

/-- `VerSQL` struct from helpers.go: one (minVersion, maxVersion, sqlText) triple. -/
structure VerSQL where
  SQL : String
  MinVer : Int
  MaxVer : Int
deriving DecidableEq, Repr

/-- The loop condition of `VerSQLs.Query`:
`(version >= query.MinVer || query.MinVer == 0) && (version < query.MaxVer || query.MaxVer == 0)`. -/
def verMatches (version : Int) (q : VerSQL) : Bool :=
  (decide (version ≥ q.MinVer) || decide (q.MinVer = 0)) &&
    (decide (version < q.MaxVer) || decide (q.MaxVer = 0))

/-- The guard `len(v) == 1 && v[0].MaxVer == PgVersion(0) && v[0].MinVer == PgVersion(0)`. -/
def soleUnbounded : List VerSQL → Bool
  | [q] => decide (q.MaxVer = 0) && decide (q.MinVer = 0)
  | _ => false

/-- The `for _, query := range v` loop of `VerSQLs.Query`: first matching
entry wins, otherwise the empty string is returned. -/
def queryLoop : List VerSQL → Int → String
  | [], _ => ""
  | q :: rest, version => if verMatches version q then q.SQL else queryLoop rest version

/-- `VerSQLs.Query` from helpers.go.  The result is `none` exactly when the Go
code evaluates `v[0]` on an empty slice, which is an out-of-range panic. -/
def querySQL (v : List VerSQL) (version : Int) : Option String :=
  if version = NoVersion ∨ soleUnbounded v = true then
    v.head?.map VerSQL.SQL
  else
    some (queryLoop v version)

lemma queryLoop_of_find?_eq_some {v : List VerSQL} {version : Int} {q : VerSQL}
    (h : v.find? (verMatches version) = some q) : queryLoop v version = q.SQL := by
  induction v with
  | nil => simp [List.find?] at h
  | cons a rest ih =>
    cases ha : verMatches version a with
    | true =>
      rw [List.find?_cons_of_pos _ ha] at h
      cases h
      simp [queryLoop, ha]
    | false =>
      rw [List.find?_cons_of_neg _ (by simp [ha])] at h
      simp [queryLoop, ha, ih h]

lemma queryLoop_of_find?_eq_none {v : List VerSQL} {version : Int}
    (h : v.find? (verMatches version) = none) : queryLoop v version = "" := by
  induction v with
  | nil => rfl
  | cons a rest ih =>
    cases ha : verMatches version a with
    | true =>
      rw [List.find?_cons_of_pos _ ha] at h
      exact absurd h (by simp)
    | false =>
      rw [List.find?_cons_of_neg _ (by simp [ha])] at h
      simp [queryLoop, ha, ih h]

/-- The two-entry example list from the spec:
`[min=100000,max=0]:"A"` then `[min=90400,max=100000]:"B"`. -/
def exampleVariants : List VerSQL :=
  [⟨"A", 100000, 0⟩, ⟨"B", 90400, 100000⟩]

/-- C1: the resolver returns the first entry (in list order) whose half-open
range contains the version; `NoVersion` always selects the first entry; a sole
entry with both bounds zero is always selected; with no match among two or
more entries the empty string is returned; and the spec's concrete examples
resolve to "B", "A" and "" respectively. -/
theorem verSQLs_query_resolution :
    (∀ (v : List VerSQL) (V : Int) (q : VerSQL),
        V ≠ NoVersion → v.find? (verMatches V) = some q → querySQL v V = some q.SQL)
    ∧ (∀ (q : VerSQL) (rest : List VerSQL), querySQL (q :: rest) NoVersion = some q.SQL)
    ∧ (∀ (q : VerSQL) (V : Int), q.MinVer = 0 → q.MaxVer = 0 → querySQL [q] V = some q.SQL)
    ∧ (∀ (v : List VerSQL) (V : Int),
        V ≠ NoVersion → 2 ≤ v.length → v.find? (verMatches V) = none → querySQL v V = some "")
    ∧ (querySQL exampleVariants 90500 = some "B"
        ∧ querySQL exampleVariants 100500 = some "A"
        ∧ querySQL exampleVariants 80000 = some "") := by
  refine ⟨?_, ?_, ?_, ?_, by decide⟩
  · intro v V q hV hfind
    by_cases hsole : soleUnbounded v = true
    · match v, hsole with
      | [q0], hsole =>
        have hb : q0.MaxVer = 0 ∧ q0.MinVer = 0 := by
          simpa [soleUnbounded] using hsole
        have hm : verMatches V q0 = true := by
          simp [verMatches, hb.1, hb.2]
        rw [List.find?_cons_of_pos _ hm] at hfind
        cases hfind
        rw [querySQL, if_pos (Or.inr hsole)]
        rfl
    · rw [querySQL, if_neg (by simp [hV, hsole])]
      exact congrArg some (queryLoop_of_find?_eq_some hfind)
  · intro q rest
    simp [querySQL, NoVersion]
  · intro q V hmin hmax
    have hsole : soleUnbounded [q] = true := by simp [soleUnbounded, hmin, hmax]
    simp [querySQL, hsole]
  · intro v V hV hlen hfind
    have hsole : soleUnbounded v = false := by
      match v, hlen with
      | _ :: _ :: _, _ => rfl
    rw [querySQL, if_neg (by simp [hV, hsole])]
    exact congrArg some (queryLoop_of_find?_eq_none hfind)

/-- Witness for C1: the first clause applied to a concrete single-entry list. -/
theorem verSQLs_query_resolution_witness :
    querySQL [⟨"X", 0, 0⟩] 123 = some "X" :=
  verSQLs_query_resolution.2.2.1 ⟨"X", 0, 0⟩ 123 rfl rfl

/-- C9: on the empty variant list the resolver returns the empty string for
every version except `NoVersion`, but at `NoVersion` it evaluates `v[0]` on
the empty slice — an out-of-range panic, modelled as `none`. -/
theorem verSQLs_query_empty_not_total :
    querySQL [] NoVersion = none
    ∧ (∀ (V : Int), V ≠ NoVersion → querySQL [] V = some "") := by
  constructor
  · simp [querySQL]
  · intro V hV
    simp [querySQL, hV, soleUnbounded, queryLoop]

/-- Witness for C9: the non-panicking clause at version 90500. -/
theorem verSQLs_query_empty_not_total_witness :
    querySQL [] 90500 = some "" :=
  verSQLs_query_empty_not_total.2 90500 (by decide)

/-! ## Raw value conversion (pkg/db/db.go, `ToFloat64` and `ToString`) -/

/-- The runtime shapes a scanned interface value can take, following the type
switch of db.go's `ToFloat64`/`ToString`: int64, float64, time.Time (carried
by its Unix-epoch seconds), bool, a byte buffer, string, nil, and any other
runtime type (carried by its type name, as used by `%T`). -/
inductive RawValue where
  | rInt (i : Int)
  | rFloat (q : ℚ)
  | rTime (unixSeconds : Int)
  | rBool (b : Bool)
  | rBytes (s : String)
  | rString (s : String)
  | rNull
  | rOther (typeName : String)
deriving DecidableEq, Repr

/-- A float64 result: an ordinary numeric value (modelled exactly as a
rational) or NaN, which `ToFloat64` returns in all failure and absence cases. -/
inductive FVal where
  | num (q : ℚ)
  | nan
deriving DecidableEq, Repr

/-- The errors `ToFloat64` can return: the parse failures of the byte-buffer
and string cases, and the default case's "unknown type" error carrying the
offending value's runtime type name. -/
inductive ConvErr where
  | parseByteErr
  | parseStringErr
  | unknownType (typeName : String)
deriving DecidableEq, Repr

/-- Value of a digit string (no validation; callers check `isDigit` first). -/
def digitsVal (cs : List Char) : Nat :=
  cs.foldl (fun acc c => acc * 10 + (c.toNat - 48)) 0

/-- Model of Go's `strconv.ParseFloat` on plain decimal input: an optional
sign, then digits with at most one decimal point and at least one digit.
`ParseFloat` itself is Go standard library (outside this repository); the
exporter feeds it textual numeric column values such as "42.5". -/
def parseFloatQ (s : String) : Option ℚ :=
  let signed : Bool × List Char :=
    match s.data with
    | '-' :: rest => (true, rest)
    | '+' :: rest => (false, rest)
    | cs => (false, cs)
  let signQ : Int := if signed.1 then -1 else 1
  match signed.2.splitOn '.' with
  | [ip] =>
    if ip.isEmpty || !ip.all Char.isDigit then none
    else some (mkRat (signQ * (digitsVal ip : Int)) 1)
  | [ip, fp] =>
    if (ip.isEmpty && fp.isEmpty) || !ip.all Char.isDigit || !fp.all Char.isDigit then none
    else
      some (mkRat (signQ * ((digitsVal ip : Int) * (10 : Int) ^ fp.length + (digitsVal fp : Int)))
        ((10 : Nat) ^ fp.length))
  | _ => none

/-- `ToFloat64` from db.go, returning Go's (float64, error) pair. -/
def toFloat64 : RawValue → FVal × Option ConvErr
  | .rInt i => (.num (i : ℚ), none)
  | .rFloat q => (.num q, none)
  | .rTime u => (.num (u : ℚ), none)
  | .rBool b => if b then (.num 1, none) else (.num 0, none)
  | .rBytes s =>
    match parseFloatQ s with
    | some q => (.num q, none)
    | none => (.nan, some .parseByteErr)
  | .rString s =>
    match parseFloatQ s with
    | some q => (.num q, none)
    | none => (.nan, some .parseStringErr)
  | .rNull => (.nan, none)
  | .rOther t => (.nan, some (.unknownType t))

/-- Abstraction of Go's default `fmt.Sprintf` rendering of an int64. -/
def goFormatInt (i : Int) : String := toString i

/-- Abstraction of Go's default `fmt.Sprintf` rendering of a float64. -/
def goFormatRat (q : ℚ) : String := toString q

/-- Go's rendering of a bool value. -/
def goFormatBool (b : Bool) : String := if b then "true" else "false"

/-- `ToString` from db.go: a display string plus a success flag; the default
case returns the empty string and `false`. -/
def toGoString : RawValue → String × Bool
  | .rInt i => (goFormatInt i, true)
  | .rFloat q => (goFormatRat q, true)
  | .rTime u => (goFormatInt u, true)
  | .rBool b => (goFormatBool b, true)
  | .rNull => ("", true)
  | .rBytes s => (s, true)
  | .rString s => (s, true)
  | .rOther _ => ("", false)

/-- C6 counterexample: an int64 input is a shape outside the claim's
enumerated set (boolean, timestamp, byte buffer, string, nil), yet
`ToFloat64` converts it to 7.0 without error instead of failing. -/
theorem toFloat64_int64_converts_without_error :
    toFloat64 (RawValue.rInt 7) = (FVal.num ((7 : Int) : ℚ), none) := rfl

/-- C6 (amended): `ToFloat64` maps integer and floating-point inputs to their
numeric value, boolean true/false to 1.0/0.0, a timestamp to its Unix epoch
seconds, a parseable byte buffer or string to its decimal value ("42.5" to
42.5) and an unparseable one to NaN with a parse error, nil to NaN with no
error, and every remaining input shape to an error carrying the value's
runtime type. -/
theorem toFloat64_spec :
    (∀ i : Int, toFloat64 (.rInt i) = (.num (i : ℚ), none))
    ∧ (∀ q : ℚ, toFloat64 (.rFloat q) = (.num q, none))
    ∧ toFloat64 (.rBool true) = (.num 1, none)
    ∧ toFloat64 (.rBool false) = (.num 0, none)
    ∧ (∀ u : Int, toFloat64 (.rTime u) = (.num (u : ℚ), none))
    ∧ (∀ (s : String) (q : ℚ), parseFloatQ s = some q →
        toFloat64 (.rBytes s) = (.num q, none) ∧ toFloat64 (.rString s) = (.num q, none))
    ∧ (∀ s : String, parseFloatQ s = none →
        toFloat64 (.rBytes s) = (.nan, some .parseByteErr)
          ∧ toFloat64 (.rString s) = (.nan, some .parseStringErr))
    ∧ toFloat64 .rNull = (.nan, none)
    ∧ (∀ t : String, toFloat64 (.rOther t) = (.nan, some (.unknownType t)))
    ∧ toFloat64 (.rBytes "42.5") = (.num (85 / 2), none) := by
  refine ⟨fun i => rfl, fun q => rfl, rfl, rfl, fun u => rfl, ?_, ?_, rfl, fun t => rfl, ?_⟩
  · intro s q h
    constructor <;> simp [toFloat64, h]
  · intro s h
    constructor <;> simp [toFloat64, h]
  · have hp : parseFloatQ "42.5" = some (mkRat 85 2) := by decide
    have hq : (mkRat 85 2 : ℚ) = 85 / 2 := by norm_num [mkRat, Rat.normalize]
    simp [toFloat64, hp, hq]

/-- Witness for C6's amended theorem: the parse clause applied at "1.5". -/
theorem toFloat64_spec_witness :
    toFloat64 (.rBytes "1.5") = (.num (mkRat 3 2), none)
      ∧ toFloat64 (.rString "1.5") = (.num (mkRat 3 2), none) :=
  toFloat64_spec.2.2.2.2.2.1 "1.5" (mkRat 3 2) (by decide)

/-! ## Metric definitions, jobs and label maps (pkg/config, pkg/pgcollector) -/

/-- The `ColumnUsage` enumeration from pkg/config/helpers.go. -/
inductive ColumnUsage where
  | Discard
  | Label
  | Counter
  | Gauge
deriving DecidableEq, Repr

/-- The `Metric` struct from pkg/config/helpers.go: usage kind and description. -/
structure Metric where
  Usage : ColumnUsage
  Description : String
deriving DecidableEq, Repr

/-- Go's zero value for `Metric`, the result of indexing the metrics map at a
missing key: usage 0 is `Discard`. -/
def zeroMetric : Metric := ⟨ColumnUsage.Discard, ""⟩

/-- The `Metrics` map from column name to metric definition (a Go map,
modelled as an association list; configurations have unique keys). -/
abbrev MetricsMap := List (String × Metric)

/-- `job.Metrics[name]` — Go map indexing with zero-value default. -/
def metricsGet (ms : MetricsMap) (name : String) : Metric :=
  (ms.lookup name).getD zeroMetric

/-- The `Query` struct from pkg/config/helpers.go. -/
structure QueryConf where
  Name : String
  Metrics : MetricsMap
  VerSQL : List VerSQL
  NameColumn : String
  ValueColumn : String
deriving DecidableEq, Repr

/-- `workerJob` from pgcollector.go: an embedded `Query`, the owning target's
static labels, and the target's resolved server version. -/
structure WorkerJob where
  query : QueryConf
  dbLabels : List (String × String)
  pgVersion : Int
deriving DecidableEq, Repr

/-- One result row: Go's `map[string]interface{}` keyed by column name. -/
abbrev Row := List (String × RawValue)

/-- `row[columnName]` — indexing a Go map of interface values at a missing
column yields interface nil. -/
def rowGet (row : Row) (c : String) : RawValue :=
  (row.lookup c).getD RawValue.rNull

/-- Go map assignment `m[k] = v` on an association list: overwrite any
existing binding of `k`, otherwise append a new one. -/
def mapInsert (m : List (String × String)) (k v : String) : List (String × String) :=
  if m.any (fun p => p.1 == k) then
    m.map (fun p => if p.1 == k then (k, v) else p)
  else m ++ [(k, v)]

/-- `mergeLabels` from pgcollector.go: start from an empty map, copy `a` in,
then copy `b` in; bindings from `b` overwrite bindings from `a`. -/
def mergeLabels (a b : List (String × String)) : List (String × String) :=
  (a ++ b).foldl (fun acc p => mapInsert acc p.1 p.2) []

lemma lookup_append (l1 l2 : List (String × String)) (k : String) :
    (l1 ++ l2).lookup k = ((l1.lookup k).or (l2.lookup k)) := by
  induction l1 with
  | nil => simp [List.lookup]
  | cons p rest ih =>
    cases h : (k == p.1) with
    | true => simp [List.lookup, h]
    | false => simp [List.lookup, h, ih]

lemma lookup_eq_none_of_not_mem_keys {l : List (String × String)} {k : String}
    (h : k ∉ l.map Prod.fst) : l.lookup k = none := by
  induction l with
  | nil => rfl
  | cons p rest ih =>
    simp only [List.map_cons, List.mem_cons, not_or] at h
    have hb : (k == p.1) = false := by simpa using h.1
    simp [List.lookup, hb, ih h.2]

lemma lookup_map_overwrite_mem (m : List (String × String)) (k v : String)
    (hany : m.any (fun p => p.1 == k)) :
    (m.map (fun p => if p.1 == k then (k, v) else p)).lookup k = some v := by
  induction m with
  | nil => simp at hany
  | cons p rest ih =>
    rw [List.map_cons]
    by_cases hp : (p.1 == k) = true
    · rw [if_pos hp]
      simp [List.lookup]
    · rw [if_neg hp]
      have hk : (k == p.1) = false := by
        rw [Bool.eq_false_iff]
        intro hc
        apply hp
        have hkp : k = p.1 := by simpa using hc
        simp [hkp]
      have hrest : rest.any (fun q => q.1 == k) = true := by
        rcases List.any_eq_true.mp hany with ⟨q, hq, hqk⟩
        rcases List.mem_cons.mp hq with rfl | hq2
        · exact absurd hqk hp
        · exact List.any_eq_true.mpr ⟨q, hq2, hqk⟩
      refine Eq.trans ?_ (ih hrest)
      simp [List.lookup, hk]

lemma lookup_mapInsert_self (m : List (String × String)) (k v : String) :
    (mapInsert m k v).lookup k = some v := by
  rw [mapInsert]
  by_cases hany : m.any (fun p => p.1 == k)
  · rw [if_pos hany]
    exact lookup_map_overwrite_mem m k v hany
  · rw [if_neg hany]
    rw [lookup_append]
    have hnone : m.lookup k = none := by
      apply lookup_eq_none_of_not_mem_keys
      intro hmem
      apply hany
      rw [List.any_eq_true]
      rcases List.mem_map.mp hmem with ⟨p, hp, hpk⟩
      exact ⟨p, hp, by simp [hpk]⟩
    simp [hnone, List.lookup]

lemma lookup_map_overwrite (m : List (String × String)) (k v k2 : String) (h : k2 ≠ k) :
    (m.map (fun p => if p.1 == k then (k, v) else p)).lookup k2 = m.lookup k2 := by
  induction m with
  | nil => rfl
  | cons p rest ih =>
    rw [List.map_cons]
    by_cases hp : (p.1 == k) = true
    · rw [if_pos hp]
      have hk2 : (k2 == k) = false := by simpa using h
      have hk2p : (k2 == p.1) = false := by
        rw [Bool.eq_false_iff]
        intro hc
        apply h
        have h1 : k2 = p.1 := by simpa using hc
        have h2 : p.1 = k := by simpa using hp
        rw [h1, h2]
      refine Eq.trans ?_ (Eq.trans ih ?_)
      · simp [List.lookup, hk2]
      · simp [List.lookup, hk2p]
    · rw [if_neg hp]
      by_cases hq : (k2 == p.1) = true
      · simp [List.lookup, hq]
      · have hqf : (k2 == p.1) = false := by simpa using hq
        refine Eq.trans ?_ (Eq.trans ih ?_)
        · simp [List.lookup, hqf]
        · simp [List.lookup, hqf]

lemma lookup_mapInsert_ne (m : List (String × String)) (k v k2 : String) (h : k2 ≠ k) :
    (mapInsert m k v).lookup k2 = m.lookup k2 := by
  rw [mapInsert]
  by_cases hany : m.any (fun p => p.1 == k)
  · rw [if_pos hany]
    exact lookup_map_overwrite m k v k2 h
  · rw [if_neg hany, lookup_append]
    cases hm : m.lookup k2 with
    | some w => simp [hm]
    | none =>
      have hk2 : (k2 == k) = false := by simpa using h
      simp [hm, List.lookup, hk2]

lemma lookup_foldl_mapInsert (l : List (String × String)) (acc : List (String × String))
    (k : String) :
    ((l.foldl (fun a p => mapInsert a p.1 p.2) acc).lookup k)
      = ((l.reverse.lookup k).or (acc.lookup k)) := by
  induction l generalizing acc with
  | nil => simp [Option.or, List.lookup]
  | cons p rest ih =>
    rw [List.foldl_cons, ih, List.reverse_cons, lookup_append]
    by_cases hk : k = p.1
    · subst hk
      rw [lookup_mapInsert_self]
      cases hrev : rest.reverse.lookup p.1 <;> simp [Option.or, List.lookup, hrev]
    · rw [lookup_mapInsert_ne _ _ _ _ hk]
      have hkp : (k == p.1) = false := by simpa using hk
      cases hrev : rest.reverse.lookup k <;> simp [Option.or, List.lookup, hkp, hrev]

lemma lookup_reverse_of_nodupKeys (l : List (String × String)) (k : String)
    (hnd : (l.map Prod.fst).Nodup) : l.reverse.lookup k = l.lookup k := by
  induction l with
  | nil => rfl
  | cons p rest ih =>
    rw [List.reverse_cons, lookup_append]
    simp only [List.map_cons, List.nodup_cons] at hnd
    by_cases hk : k = p.1
    · have hnoner : rest.reverse.lookup k = none := by
        apply lookup_eq_none_of_not_mem_keys
        intro hc
        apply hnd.1
        rw [← hk]
        simpa [List.map_reverse, List.mem_reverse] using hc
      have hkp : (k == p.1) = true := by simpa using hk
      simp [hnoner, Option.or, List.lookup, hkp]
    · have hkp : (k == p.1) = false := by simpa using hk
      rw [ih hnd.2]
      cases hx : rest.lookup k <;> simp [Option.or, List.lookup, hkp, hx]

/-- C7: the merged label set contains every key of both maps, and on any key
collision the dynamic (second) map's value wins over the static (first)
map's; merging static env=prod with dynamic env=staging, shard=1 yields
env=staging, shard=1. -/
theorem mergeLabels_dynamic_wins :
    (∀ (a b : List (String × String)) (k : String),
        (a.map Prod.fst).Nodup → (b.map Prod.fst).Nodup →
        (mergeLabels a b).lookup k = ((b.lookup k).or (a.lookup k)))
    ∧ mergeLabels [("env", "prod")] [("env", "staging"), ("shard", "1")]
        = [("env", "staging"), ("shard", "1")] := by
  constructor
  · intro a b k hna hnb
    rw [mergeLabels, lookup_foldl_mapInsert, List.reverse_append, lookup_append,
      lookup_reverse_of_nodupKeys _ _ hnb, lookup_reverse_of_nodupKeys _ _ hna]
    cases b.lookup k <;> cases a.lookup k <;> simp [Option.or, List.lookup]
  · decide

/-- Witness for C7: the general clause applied at the spec's example, looking
up the colliding key. -/
theorem mergeLabels_dynamic_wins_witness :
    (mergeLabels [("env", "prod")] [("env", "staging"), ("shard", "1")]).lookup "env"
      = some "staging" := by
  have h := mergeLabels_dynamic_wins.1 [("env", "prod")] [("env", "staging"), ("shard", "1")]
    "env" (by decide) (by decide)
  rw [h]
  decide

/-! ## Worker loop (pkg/pgcollector/pgcollector.go, `worker` and `createMetric`) -/

/-- An emitted counter or gauge observation: namespace (the query name),
metric name, kind, merged constant labels, and numeric value. -/
structure Emitted where
  Namespace : String
  Name : String
  Kind : ColumnUsage
  ConstLabels : List (String × String)
  Value : FVal
deriving DecidableEq, Repr

/-- Result of `createMetric`: an emitted metric, a conversion error (Go's
(nil, err)), or Go's (nil, nil) for usages other than Counter and Gauge. -/
inductive CMResult where
  | emitted (m : Emitted)
  | convError
  | skipped
deriving DecidableEq, Repr

/-- `createMetric` from pgcollector.go: dispatch on the configured usage of
`name`; for Counter and Gauge convert the raw value with `ToFloat64`. -/
def createMetric (job : WorkerJob) (name : String) (constLabels : List (String × String))
    (raw : RawValue) : CMResult :=
  match (metricsGet job.query.Metrics name).Usage with
  | ColumnUsage.Counter =>
    match toFloat64 raw with
    | (v, none) => .emitted ⟨job.query.Name, name, ColumnUsage.Counter, constLabels, v⟩
    | (_, some _) => .convError
  | ColumnUsage.Gauge =>
    match toFloat64 raw with
    | (v, none) => .emitted ⟨job.query.Name, name, ColumnUsage.Gauge, constLabels, v⟩
    | (_, some _) => .convError
  | _ => .skipped

/-- The label columns of a job, collected from the metrics map before row
processing (usage `Label`). -/
def labelColumns (ms : MetricsMap) : List String :=
  (ms.filter (fun p => p.2.Usage == ColumnUsage.Label)).map Prod.fst

/-- One iteration of the label loop: convert the label column with
`ToString`, count a failed conversion as an error, and store the resulting
string (empty on failure) under the column name regardless. -/
def labelStep (row : Row) (acc : List (String × String) × Nat) (c : String) :
    List (String × String) × Nat :=
  (mapInsert acc.1 c (toGoString (rowGet row c)).1,
    acc.2 + if (toGoString (rowGet row c)).2 then 0 else 1)

/-- The per-row label loop of the worker over all label columns. -/
def buildLabels (job : WorkerJob) (row : Row) : List (String × String) × Nat :=
  (labelColumns job.query.Metrics).foldl (labelStep row) ([], 0)

/-- Column mode (`NameColumn == ""`): the `for colName, colValue := range row`
loop.  Label columns and columns absent from the metrics map are skipped; a
metric-creation error abandons the remaining columns and the whole job
(`continue jobs`), reported by the final Bool. -/
def processColumns (job : WorkerJob) (constLabels labels : List (String × String)) :
    Row → List Emitted × Nat × Bool
  | [] => ([], 0, false)
  | (c, v) :: rest =>
    if (labels.lookup c).isSome then processColumns job constLabels labels rest
    else if (job.query.Metrics.lookup c).isNone then processColumns job constLabels labels rest
    else
      match createMetric job c constLabels v with
      | .convError => ([], 1, true)
      | .skipped => processColumns job constLabels labels rest
      | .emitted m =>
        let r := processColumns job constLabels labels rest
        (m :: r.1, r.2.1, r.2.2)

/-- Processing of one result row by the worker: build labels, merge them over
the target's static labels, then either name/value mode or column mode.
Returns (emitted metrics, error increments, abandon-the-job flag). -/
def processRow (job : WorkerJob) (row : Row) : List Emitted × Nat × Bool :=
  let built := buildLabels job row
  let constLabels := mergeLabels job.dbLabels built.1
  if job.query.NameColumn ≠ "" then
    let conv := toGoString (rowGet row job.query.NameColumn)
    if conv.2 = false then ([], built.2 + 1, true)
    else
      match createMetric job conv.1 constLabels (rowGet row job.query.ValueColumn) with
      | .convError => ([], built.2 + 1, true)
      | .skipped => ([], built.2, false)
      | .emitted m => ([m], built.2, false)
  else
    let r := processColumns job constLabels built.1 row
    (r.1, built.2 + r.2.1, r.2.2)

/-- The `for _, row := range rows` loop: an abandoning row (`continue jobs`)
drops every remaining row of the job. -/
def processRows (job : WorkerJob) : List Row → List Emitted × Nat × Bool
  | [] => ([], 0, false)
  | r :: rest =>
    let h := processRow job r
    if h.2.2 then (h.1, h.2.1, true)
    else
      let t := processRows job rest
      (h.1 ++ t.1, h.2.1 + t.2.1, t.2.2)

/-- Outcome of the adapter's `Exec` as observed by the worker: a row list,
the distinguished statement-timeout failure (`ErrQueryTimeout`), or any
other execution failure. -/
inductive ExecResult where
  | rows (rs : List Row)
  | failTimeout
  | failOther

/-- The pq/pgx error code for "query_canceled" (db.go `queryCanceled`). -/
def queryCanceled : String := "57014"

/-- Whether `needle` starts `hay` (character-wise). -/
def charsStartWith : List Char → List Char → Bool
  | [], _ => true
  | _ :: _, [] => false
  | n :: ns, h :: hs => n == h && charsStartWith ns hs

/-- Go's `strings.Contains`. -/
def strContainsSub (hay needle : String) : Bool :=
  hay.data.tails.any (fun t => charsStartWith needle.data t)

/-- The two failure classes `Db.Exec` can surface to the worker. -/
inductive ExecErr where
  | errQueryTimeout
  | queryError
deriving DecidableEq, Repr

/-- The error classification of `Db.Exec` (db.go): pg error code 57014 whose
message contains "statement timeout" becomes the distinguished
`ErrQueryTimeout`; everything else a generic query error. -/
def classifyExecError (code msg : String) : ExecErr :=
  if code == queryCanceled && strContainsSub msg "statement timeout" then .errQueryTimeout
  else .queryError

/-- One iteration of the worker loop for a single job: resolve the SQL text,
bail out counting one error if the resolution is empty, execute, count a
timeout and/or error on failure, otherwise process the rows.  Returns
(emitted metrics, error increments, timeout increments); `none` propagates
the resolver's panic on an empty variant list.  The adapter is abstracted as
a function from SQL text to an execution outcome. -/
def runJob (job : WorkerJob) (exec : String → ExecResult) :
    Option (List Emitted × Nat × Nat) :=
  (querySQL job.query.VerSQL job.pgVersion).map fun sql =>
    if sql = "" then ([], 1, 0)
    else
      match exec sql with
      | .failTimeout => ([], 1, 1)
      | .failOther => ([], 1, 0)
      | .rows rs =>
        let r := processRows job rs
        (r.1, r.2.1, 0)

/-- The worker's `for job := range jobs` loop over the queue contents. -/
def runWorker (jobs : List WorkerJob) (exec : String → ExecResult) :
    Option (List Emitted × Nat × Nat) :=
  match jobs with
  | [] => some ([], 0, 0)
  | j :: rest =>
    match runJob j exec with
    | none => none
    | some r =>
      match runWorker rest exec with
      | none => none
      | some t => some (r.1 ++ t.1, r.2.1 + t.2.1, r.2.2 + t.2.2)

/-- Merge of two worker-run results: emissions concatenate and counters add;
a panic on either side propagates. -/
def mergeRuns :
    Option (List Emitted × Nat × Nat) → Option (List Emitted × Nat × Nat) →
      Option (List Emitted × Nat × Nat)
  | some r, some t => some (r.1 ++ t.1, r.2.1 + t.2.1, r.2.2 + t.2.2)
  | _, _ => none

lemma foldl_labelStep_fst (row : Row) (cols : List String)
    (acc : List (String × String) × Nat) (c : String) :
    ((cols.foldl (labelStep row) acc).1).lookup c
      = if c ∈ cols then some (toGoString (rowGet row c)).1 else acc.1.lookup c := by
  induction cols generalizing acc with
  | nil => simp
  | cons c0 rest ih =>
    rw [List.foldl_cons, ih]
    by_cases hmem : c ∈ rest
    · simp [hmem, List.mem_cons]
    · by_cases hc : c = c0
      · subst hc
        simp [hmem, labelStep, lookup_mapInsert_self, List.mem_cons]
      · simp [hmem, hc, labelStep, lookup_mapInsert_ne _ _ _ _ hc, List.mem_cons]

lemma foldl_labelStep_snd (row : Row) (cols : List String)
    (acc : List (String × String) × Nat) :
    ((cols.foldl (labelStep row) acc).2)
      = acc.2 + (cols.filter (fun c => !(toGoString (rowGet row c)).2)).length := by
  induction cols generalizing acc with
  | nil => simp
  | cons c0 rest ih =>
    rw [List.foldl_cons, ih]
    by_cases h : (toGoString (rowGet row c0)).2 = true
    · simp [labelStep, h, List.filter_cons]
    · have hf : (toGoString (rowGet row c0)).2 = false := by
        simpa using h
      simp [labelStep, hf, List.filter_cons]
      omega

lemma processColumns_append_of_abandon (job : WorkerJob)
    (cl labels : List (String × String)) :
    ∀ (l1 l2 : Row), (processColumns job cl labels l1).2.2 = true →
      processColumns job cl labels (l1 ++ l2) = processColumns job cl labels l1 := by
  intro l1
  induction l1 with
  | nil =>
    intro l2 hab
    simp [processColumns] at hab
  | cons p rest ih =>
    intro l2 hab
    obtain ⟨c, v⟩ := p
    rw [List.cons_append]
    by_cases h1 : (labels.lookup c).isSome = true
    · have hstep : ∀ l : Row, processColumns job cl labels ((c, v) :: l)
          = processColumns job cl labels l := by
        intro l
        simp [processColumns, h1]
      rw [hstep rest] at hab
      rw [hstep, hstep]
      exact ih l2 hab
    · by_cases h2 : (job.query.Metrics.lookup c).isNone = true
      · have hstep : ∀ l : Row, processColumns job cl labels ((c, v) :: l)
            = processColumns job cl labels l := by
          intro l
          simp [processColumns, h1, h2]
        rw [hstep rest] at hab
        rw [hstep, hstep]
        exact ih l2 hab
      · cases hcm : createMetric job c cl v with
        | convError =>
          have hstep : ∀ l : Row, processColumns job cl labels ((c, v) :: l)
              = ([], 1, true) := by
            intro l
            simp [processColumns, h1, h2, hcm]
          rw [hstep, hstep]
        | skipped =>
          have hstep : ∀ l : Row, processColumns job cl labels ((c, v) :: l)
              = processColumns job cl labels l := by
            intro l
            simp [processColumns, h1, h2, hcm]
          rw [hstep rest] at hab
          rw [hstep, hstep]
          exact ih l2 hab
        | emitted m =>
          have hstep : ∀ l : Row, processColumns job cl labels ((c, v) :: l)
              = (m :: (processColumns job cl labels l).1,
                  (processColumns job cl labels l).2.1,
                  (processColumns job cl labels l).2.2) := by
            intro l
            simp [processColumns, h1, h2, hcm]
          rw [hstep rest] at hab
          simp only at hab
          rw [hstep, hstep, ih l2 hab]

lemma runWorker_append (js1 js2 : List WorkerJob) (exec : String → ExecResult) :
    runWorker (js1 ++ js2) exec = mergeRuns (runWorker js1 exec) (runWorker js2 exec) := by
  induction js1 with
  | nil =>
    cases hw : runWorker js2 exec <;> simp [runWorker, mergeRuns, hw]
  | cons j rest ih =>
    rw [List.cons_append]
    cases hj : runJob j exec with
    | none => simp [runWorker, hj, mergeRuns]
    | some r =>
      cases hw1 : runWorker rest exec with
      | none => simp [runWorker, hj, ih, hw1, mergeRuns]
      | some t1 =>
        cases hw2 : runWorker js2 exec with
        | none => simp [runWorker, hj, ih, hw1, hw2, mergeRuns]
        | some t2 =>
          simp [runWorker, hj, ih, hw1, hw2, mergeRuns, List.append_assoc, Nat.add_assoc]

/-- C4: within a worker, a label-column conversion failure is counted as an
error while the row continues with the empty string as that label's value,
whereas a name-column conversion failure is counted as an error and abandons
every remaining row of the job; jobs are processed independently, so no
other job of the worker is affected. -/
theorem worker_label_vs_name_conversion_failure :
    (∀ v : RawValue, (toGoString v).2 = false → (toGoString v).1 = "")
    ∧ (∀ (job : WorkerJob) (row : Row) (c : String),
        c ∈ labelColumns job.query.Metrics →
        ((buildLabels job row).1).lookup c = some (toGoString (rowGet row c)).1)
    ∧ (∀ (job : WorkerJob) (row : Row),
        (buildLabels job row).2
          = ((labelColumns job.query.Metrics).filter
              (fun c => !(toGoString (rowGet row c)).2)).length)
    ∧ (∀ (job : WorkerJob) (row : Row) (s : String) (m : Emitted),
        job.query.NameColumn ≠ "" →
        toGoString (rowGet row job.query.NameColumn) = (s, true) →
        createMetric job s (mergeLabels job.dbLabels (buildLabels job row).1)
            (rowGet row job.query.ValueColumn) = CMResult.emitted m →
        processRow job row = ([m], (buildLabels job row).2, false))
    ∧ (∀ (job : WorkerJob) (row : Row),
        job.query.NameColumn ≠ "" →
        (toGoString (rowGet row job.query.NameColumn)).2 = false →
        processRow job row = ([], (buildLabels job row).2 + 1, true))
    ∧ (∀ (job : WorkerJob) (r : Row) (rest : List Row),
        (processRow job r).2.2 = true →
        processRows job (r :: rest) = ((processRow job r).1, (processRow job r).2.1, true))
    ∧ (∀ (js1 js2 : List WorkerJob) (exec : String → ExecResult),
        runWorker (js1 ++ js2) exec
          = mergeRuns (runWorker js1 exec) (runWorker js2 exec)) := by
  refine ⟨?_, ?_, ?_, ?_, ?_, ?_, runWorker_append⟩
  · intro v h
    cases v <;> simp_all [toGoString]
  · intro job row c hmem
    rw [buildLabels, foldl_labelStep_fst, if_pos hmem]
  · intro job row
    rw [buildLabels, foldl_labelStep_snd]
    simp
  · intro job row s m hname hconv hcm
    simp [processRow, hname, hconv, hcm]
  · intro job row hname hfail
    simp [processRow, hname, hfail]
  · intro job r rest hab
    simp [processRows, hab]

/-- Concrete job for the C4 witness: name/value mode, no label columns. -/
def jobNameMode : WorkerJob :=
  ⟨⟨"q", [("val", ⟨ColumnUsage.Gauge, "d"⟩)], [⟨"select 1", 0, 0⟩], "name", "val"⟩, [], 0⟩

/-- Concrete row for the C4 witness: the name column holds an inconvertible
runtime value. -/
def rowBadName : Row := [("name", RawValue.rOther "chan int")]

/-- Witness for C4: the name-failure clause at a concrete job and row. -/
theorem worker_label_vs_name_conversion_failure_witness :
    processRow jobNameMode rowBadName = ([], 1, true) := by
  have h := worker_label_vs_name_conversion_failure.2.2.2.2.1 jobNameMode rowBadName
    (by decide) (by decide)
  rw [h]
  decide

/-- C5: a statement-timeout failure of query execution (pg error code 57014
with a "statement timeout" message, surfaced as ErrQueryTimeout) makes the
worker count one timeout and one error and abandon the job with no emitted
metric; any other execution failure counts one error only, also emitting
nothing; and `Db.Exec` classifies exactly the 57014/"statement timeout"
combination as the distinguished failure. -/
theorem worker_timeout_vs_other_failure :
    (∀ (job : WorkerJob) (exec : String → ExecResult) (sql : String),
        querySQL job.query.VerSQL job.pgVersion = some sql → sql ≠ "" →
        (exec sql = ExecResult.failTimeout → runJob job exec = some ([], 1, 1))
          ∧ (exec sql = ExecResult.failOther → runJob job exec = some ([], 1, 0)))
    ∧ (∀ code msg : String,
        classifyExecError code msg = ExecErr.errQueryTimeout
          ↔ (code = "57014" ∧ strContainsSub msg "statement timeout" = true)) := by
  constructor
  · intro job exec sql hsql hne
    constructor <;> intro hex <;> simp [runJob, hsql, hne, hex]
  · intro code msg
    by_cases h : (code == queryCanceled && strContainsSub msg "statement timeout") = true
    · rw [classifyExecError, if_pos h]
      simp only [Bool.and_eq_true, beq_iff_eq, queryCanceled] at h
      simp [h]
    · rw [classifyExecError, if_neg h]
      constructor
      · intro hc
        exact absurd hc (by decide)
      · rintro ⟨hc1, hc2⟩
        exact absurd (by simp [hc1, queryCanceled, hc2]) h

/-- Concrete job for the C5 witness. -/
def jobPlain : WorkerJob := ⟨⟨"q", [], [⟨"select 1", 0, 0⟩], "", ""⟩, [], 0⟩

/-- Witness for C5: a timing-out adapter at a concrete job counts one
timeout and one error. -/
theorem worker_timeout_vs_other_failure_witness :
    runJob jobPlain (fun _ => ExecResult.failTimeout) = some ([], 1, 1) :=
  (worker_timeout_vs_other_failure.1 jobPlain (fun _ => ExecResult.failTimeout)
    "select 1" (by decide) (by decide)).1 rfl

/-- C8: in column mode, a value-conversion failure on one counter/gauge
column counts one error and abandons the whole remaining job: the remaining
columns of the row are dropped, and the abandonment flag drops every
remaining row of the job. -/
theorem worker_column_mode_failure_abandons_job :
    (∀ (job : WorkerJob) (cl labels : List (String × String)) (c : String)
        (v : RawValue) (rest : Row),
        (labels.lookup c).isSome = false →
        (job.query.Metrics.lookup c).isNone = false →
        createMetric job c cl v = CMResult.convError →
        processColumns job cl labels ((c, v) :: rest) = ([], 1, true))
    ∧ (∀ (job : WorkerJob) (cl labels : List (String × String)) (l1 l2 : Row),
        (processColumns job cl labels l1).2.2 = true →
        processColumns job cl labels (l1 ++ l2) = processColumns job cl labels l1)
    ∧ (∀ (job : WorkerJob) (row : Row),
        job.query.NameColumn = "" →
        processRow job row
          = ((processColumns job (mergeLabels job.dbLabels (buildLabels job row).1)
                (buildLabels job row).1 row).1,
              (buildLabels job row).2
                + (processColumns job (mergeLabels job.dbLabels (buildLabels job row).1)
                    (buildLabels job row).1 row).2.1,
              (processColumns job (mergeLabels job.dbLabels (buildLabels job row).1)
                  (buildLabels job row).1 row).2.2))
    ∧ (∀ (job : WorkerJob) (r : Row) (rest : List Row),
        (processRow job r).2.2 = true →
        processRows job (r :: rest)
          = ((processRow job r).1, (processRow job r).2.1, true)) := by
  refine ⟨?_, processColumns_append_of_abandon, ?_, ?_⟩
  · intro job cl labels c v rest h1 h2 hcm
    simp [processColumns, h1, h2, hcm]
  · intro job row hname
    simp [processRow, hname]
  · intro job r rest hab
    simp [processRows, hab]

/-- Concrete job for the C8 witness: column mode with one counter column. -/
def jobColMode : WorkerJob :=
  ⟨⟨"q", [("hits", ⟨ColumnUsage.Counter, "d"⟩)], [⟨"select 1", 0, 0⟩], "", ""⟩, [], 0⟩

/-- Witness for C8: an inconvertible counter value at the head column
abandons the rest of the row. -/
theorem worker_column_mode_failure_abandons_job_witness :
    processColumns jobColMode [] []
        [("hits", RawValue.rOther "chan int"), ("hits", RawValue.rInt 3)]
      = ([], 1, true) :=
  worker_column_mode_failure_abandons_job.1 jobColMode [] [] "hits"
    (RawValue.rOther "chan int") [("hits", RawValue.rInt 3)]
    (by decide) (by decide) (by decide)

/-- C10: in name/value mode, a row whose converted metric name has no entry
in the job's metric definitions, or whose entry has usage Discard or Label,
is silently skipped: no metric is emitted, no error is added beyond
label-conversion errors, and the job is not abandoned. -/
theorem worker_name_mode_skips_non_numeric_usage :
    ∀ (job : WorkerJob) (row : Row) (s : String),
      job.query.NameColumn ≠ "" →
      toGoString (rowGet row job.query.NameColumn) = (s, true) →
      (metricsGet job.query.Metrics s).Usage ≠ ColumnUsage.Counter →
      (metricsGet job.query.Metrics s).Usage ≠ ColumnUsage.Gauge →
      processRow job row = ([], (buildLabels job row).2, false) := by
  intro job row s hname hconv hc hg
  have hskip : ∀ (cl : List (String × String)) (raw : RawValue),
      createMetric job s cl raw = CMResult.skipped := by
    intro cl raw
    rw [createMetric]
    cases hu : (metricsGet job.query.Metrics s).Usage with
    | Counter => exact absurd hu hc
    | Gauge => exact absurd hu hg
    | Discard => rfl
    | Label => rfl
  simp [processRow, hname, hconv, hskip]

/-- Concrete job for the C10 witness: the name column resolves to a
Label-usage entry. -/
def jobNameSkip : WorkerJob :=
  ⟨⟨"q", [("work", ⟨ColumnUsage.Label, "d"⟩)], [⟨"select 1", 0, 0⟩], "name", "val"⟩, [], 0⟩

/-- Concrete row for the C10 witness. -/
def rowNameSkip : Row := [("name", RawValue.rString "work")]

/-- Witness for C10: the concrete row is skipped without error. -/
theorem worker_name_mode_skips_non_numeric_usage_witness :
    processRow jobNameSkip rowNameSkip = ([], 0, false) := by
  have h := worker_name_mode_skips_non_numeric_usage jobNameSkip rowNameSkip "work"
    (by decide) (by decide) (by decide) (by decide)
  rw [h]
  decide

/-! ## Provisioning and dispatch in `Collect` (pkg/pgcollector/pgcollector.go,
and the sibling per-target implementation embedded in pkg/db/db.go) -/

/-- The slice of a target's configuration that provisioning depends on:
target name, worker count, and number of configured queries. -/
structure DbConf where
  name : String
  workers : Nat
  queries : Nat
deriving DecidableEq, Repr

/-- Whether the i-th adapter-provisioning attempt for a target succeeds.  A
`false` stands for a failure at any of the per-attempt failure points
(connection creation/ping, version detection, statement-timeout setup), each
of which logs, counts one error, and leaves the loop.  Attempts beyond the
end of the list succeed. -/
abbrev AttemptPlan := List Bool

/-- The inner `for i := 0; i < workersCnt; i++` provisioning loop: how many
adapters were created before the first failure, and whether a failure
occurred. -/
def provisionTarget : Nat → AttemptPlan → Nat × Bool
  | 0, _ => (0, false)
  | n + 1, [] =>
    let r := provisionTarget n []
    (r.1 + 1, r.2)
  | n + 1, o :: rest =>
    if o then
      let r := provisionTarget n rest
      (r.1 + 1, r.2)
    else (0, true)

/-- The provisioning/dispatch phase of `Collect` in pgcollector.go: any
provisioning failure executes `break dbLoop`, leaving the loop over ALL
targets, so the failing target's jobs are never enqueued and every remaining
target is neither provisioned nor dispatched.  Returns the jobs dispatched
per target and the errors counted. -/
def collectDispatchBreakAll : List (DbConf × AttemptPlan) → List (String × Nat) × Nat
  | [] => ([], 0)
  | (c, plan) :: rest =>
    let p := provisionTarget c.workers plan
    if p.2 then
      ((c.name, 0) :: rest.map (fun t => (t.1.name, 0)), 1)
    else
      let r := collectDispatchBreakAll rest
      ((c.name, c.queries) :: r.1, r.2)

/-- The provisioning/dispatch phase of the sibling `Collect` implementation
(the variant embedded in db.go): a failure breaks only the per-target inner
loop; jobs are enqueued only when at least one adapter was provisioned, the
queue is always closed, and the loop proceeds with the remaining targets. -/
def collectDispatchPerTarget : List (DbConf × AttemptPlan) → List (String × Nat) × Nat
  | [] => ([], 0)
  | (c, plan) :: rest =>
    let p := provisionTarget c.workers plan
    let d := if 0 < p.1 then c.queries else 0
    let e := if p.2 then 1 else 0
    let r := collectDispatchPerTarget rest
    ((c.name, d) :: r.1, e + r.2)

/-- C2: at the failing input — target "a" whose single adapter creation
fails, followed by healthy target "b" with one query — the pgcollector.go
`Collect` (`break dbLoop`) dispatches nothing for target "b", while the
per-target variant embedded in db.go dispatches b's query and confines the
failure to target "a"; both count the error.  In the per-target variant the
outcome of each target's provisioning is independent of the others. -/
theorem collect_break_scope_divergence :
    collectDispatchBreakAll [(⟨"a", 1, 1⟩, [false]), (⟨"b", 1, 1⟩, [true])]
        = ([("a", 0), ("b", 0)], 1)
    ∧ collectDispatchPerTarget [(⟨"a", 1, 1⟩, [false]), (⟨"b", 1, 1⟩, [true])]
        = ([("a", 0), ("b", 1)], 1)
    ∧ (∀ ts1 ts2 : List (DbConf × AttemptPlan),
        collectDispatchPerTarget (ts1 ++ ts2)
          = ((collectDispatchPerTarget ts1).1 ++ (collectDispatchPerTarget ts2).1,
              (collectDispatchPerTarget ts1).2 + (collectDispatchPerTarget ts2).2)) := by
  refine ⟨by decide, by decide, ?_⟩
  intro ts1 ts2
  induction ts1 with
  | nil => simp [collectDispatchPerTarget]
  | cons t rest ih =>
    obtain ⟨c, plan⟩ := t
    simp [collectDispatchPerTarget, ih, Nat.add_assoc]

/-! ## Mutual exclusion of collection cycles (`Collect`, pkg/pgcollector)

`Collect` begins with `p.Lock()`, immediately defers `p.Unlock()`, and then
defers the internal-metrics reporting closure; Go runs deferred functions in
last-in-first-out order at function exit, so the reporting closure runs
before the unlock.  The body in between performs counter reset,
provisioning/dispatch, the `wg.Wait` drain, and connection close.  Two
invocations are modelled as two threads interleaving over this action trace
with a mutex semantics for lock/unlock. -/

/-- The observable actions of one `Collect` invocation. -/
inductive Act where
  | lock
  | reset
  | provision
  | dispatch
  | drain
  | closeConns
  | report
  | unlock
deriving DecidableEq, Repr

/-- A statement of the `Collect` body: an immediate action or the
registration of a deferred action. -/
inductive GoStmt where
  | act (a : Act)
  | deferred (a : Act)

/-- Execution of a statement list with a defer stack: immediate actions run
in order; deferred actions are pushed and run last-in-first-out at exit. -/
def runGo : List GoStmt → List Act → List Act
  | [], stack => stack
  | GoStmt.act a :: rest, stack => a :: runGo rest stack
  | GoStmt.deferred a :: rest, stack => runGo rest (a :: stack)

/-- The statement order of `PgCollector.Collect`, as written in the source. -/
def collectStmts : List GoStmt :=
  [GoStmt.act Act.lock, GoStmt.deferred Act.unlock, GoStmt.deferred Act.report,
    GoStmt.act Act.reset, GoStmt.act Act.provision, GoStmt.act Act.dispatch,
    GoStmt.act Act.drain, GoStmt.act Act.closeConns]

/-- The action trace one `Collect` invocation executes. -/
def collectTrace : List Act := runGo collectStmts []

/-- State of two concurrent `Collect` invocations: the mutex owner (if any)
and each thread's position in `collectTrace` (number of actions executed). -/
structure CState where
  m : Option Bool
  p1 : Nat
  p2 : Nat
deriving DecidableEq, Repr

/-- Both invocations at the start, mutex free. -/
def initState : CState := ⟨none, 0, 0⟩

/-- Effect of an action on the mutex: `p.Lock()` takes it for the executing
thread, the deferred `p.Unlock()` releases it, everything else leaves it. -/
def mutexAfter (a : Act) (t : Bool) (m : Option Bool) : Option Bool :=
  match a with
  | Act.lock => some t
  | Act.unlock => none
  | _ => m

/-- Interleaving semantics: one thread executes its next action; `lock` can
only fire when the mutex is free (`sync.Mutex` blocks otherwise). -/
inductive CStep : CState → CState → Prop
  | thread1 (s : CState) (a : Act)
      (h : collectTrace.get? s.p1 = some a)
      (hl : a = Act.lock → s.m = none) :
      CStep s ⟨mutexAfter a false s.m, s.p1 + 1, s.p2⟩
  | thread2 (s : CState) (a : Act)
      (h : collectTrace.get? s.p2 = some a)
      (hl : a = Act.lock → s.m = none) :
      CStep s ⟨mutexAfter a true s.m, s.p1, s.p2 + 1⟩

/-- States reachable from the initial state. -/
def CReachable (s : CState) : Prop := Relation.ReflTransGen CStep initState s

/-- A thread is inside its collection cycle once it has executed `Lock` and
until it has executed the deferred `Unlock` (positions 1 through 7). -/
def inCycle (pc : Nat) : Prop := 1 ≤ pc ∧ pc ≤ 7

/-- The mutex invariant: a thread inside its cycle holds the mutex, and both
counters stay within the trace. -/
def MutexInv (s : CState) : Prop :=
  (inCycle s.p1 → s.m = some false) ∧ (inCycle s.p2 → s.m = some true)
    ∧ s.p1 ≤ 8 ∧ s.p2 ≤ 8

lemma collectTrace_get?_lt {p : Nat} {a : Act} (h : collectTrace.get? p = some a) :
    p < 8 := by
  by_contra hge
  push_neg at hge
  have hn : collectTrace.get? p = none := by
    apply List.get?_eq_none.mpr
    simpa [collectTrace, collectStmts, runGo] using hge
  rw [hn] at h
  exact Option.noConfusion h

lemma collectTrace_lock_iff {p : Nat} {a : Act} (h : collectTrace.get? p = some a) :
    (a = Act.lock ↔ p = 0) ∧ (a = Act.unlock ↔ p = 7) := by
  have hp : p < 8 := collectTrace_get?_lt h
  interval_cases p <;>
    (simp [collectTrace, collectStmts, runGo] at h; subst h; constructor <;> simp)

lemma cstep_preserves {s s' : CState} (hs : MutexInv s) (h : CStep s s') :
    MutexInv s' := by
  cases h with
  | thread1 a hget hlock =>
    obtain ⟨m, p1, p2⟩ := s
    obtain ⟨hiffL, hiffU⟩ := collectTrace_lock_iff hget
    have hp : p1 < 8 := collectTrace_get?_lt hget
    simp only [MutexInv, inCycle] at hs ⊢
    obtain ⟨hs1, hs2, hb1, hb2⟩ := hs
    by_cases h0 : p1 = 0
    · subst h0
      have ha : a = Act.lock := hiffL.mpr rfl
      subst ha
      have hm : m = none := hlock rfl
      subst hm
      refine ⟨fun _ => rfl, fun hc => absurd (hs2 hc) (by simp), by omega, hb2⟩
    · by_cases h7 : p1 = 7
      · subst h7
        have ha : a = Act.unlock := hiffU.mpr rfl
        subst ha
        have hm : m = some false := hs1 ⟨by omega, by omega⟩
        refine ⟨fun hc => absurd hc.2 (by omega), fun hc => ?_, by omega, hb2⟩
        exact absurd (hm.symm.trans (hs2 hc)) (by decide)
      · have ha1 : a ≠ Act.lock := fun hc => h0 (hiffL.mp hc)
        have ha2 : a ≠ Act.unlock := fun hc => h7 (hiffU.mp hc)
        have hmA : mutexAfter a false m = m := by
          cases a <;> simp_all [mutexAfter]
        refine ⟨?_, ?_, by omega, hb2⟩
        · intro _
          rw [hmA]
          exact hs1 ⟨by omega, by omega⟩
        · intro hc
          rw [hmA]
          exact hs2 hc
  | thread2 a hget hlock =>
    obtain ⟨m, p1, p2⟩ := s
    obtain ⟨hiffL, hiffU⟩ := collectTrace_lock_iff hget
    have hp : p2 < 8 := collectTrace_get?_lt hget
    simp only [MutexInv, inCycle] at hs ⊢
    obtain ⟨hs1, hs2, hb1, hb2⟩ := hs
    by_cases h0 : p2 = 0
    · subst h0
      have ha : a = Act.lock := hiffL.mpr rfl
      subst ha
      have hm : m = none := hlock rfl
      subst hm
      refine ⟨fun hc => absurd (hs1 hc) (by decide), fun _ => rfl, hb1, by omega⟩
    · by_cases h7 : p2 = 7
      · subst h7
        have ha : a = Act.unlock := hiffU.mpr rfl
        subst ha
        have hm : m = some true := hs2 ⟨by omega, by omega⟩
        refine ⟨fun hc => ?_, fun hc => absurd hc.2 (by omega), hb1, by omega⟩
        exact absurd (hm.symm.trans (hs1 hc)) (by decide)
      · have ha1 : a ≠ Act.lock := fun hc => h0 (hiffL.mp hc)
        have ha2 : a ≠ Act.unlock := fun hc => h7 (hiffU.mp hc)
        have hmA : mutexAfter a true m = m := by
          cases a <;> simp_all [mutexAfter]
        refine ⟨?_, ?_, hb1, by omega⟩
        · intro hc
          rw [hmA]
          exact hs1 hc
        · intro _
          rw [hmA]
          exact hs2 ⟨by omega, by omega⟩

lemma creachable_inv (s : CState) (h : CReachable s) : MutexInv s := by
  induction h with
  | refl =>
    refine ⟨fun hc => ?_, fun hc => ?_, by simp [initState], by simp [initState]⟩ <;>
      simp [initState, inCycle] at hc
  | tail _ hstep ih =>
    exact cstep_preserves ih hstep

/-- C3: the reporting of the internal metrics happens before the deferred
unlock (Go defers run in LIFO order), and in every reachable interleaving of
two `Collect` invocations at most one thread is between its `Lock` and its
deferred `Unlock`; while one invocation is inside its cycle the other has
either not started or has already completed its whole cycle, reporting
included. -/
theorem collect_cycles_mutually_exclusive :
    collectTrace = [Act.lock, Act.reset, Act.provision, Act.dispatch, Act.drain,
        Act.closeConns, Act.report, Act.unlock]
    ∧ (∀ s : CState, CReachable s →
        ¬(inCycle s.p1 ∧ inCycle s.p2)
          ∧ (inCycle s.p2 → s.p1 = 0 ∨ s.p1 = 8)
          ∧ (inCycle s.p1 → s.p2 = 0 ∨ s.p2 = 8)) := by
  refine ⟨rfl, ?_⟩
  intro s hreach
  obtain ⟨h1, h2, hb1, hb2⟩ := creachable_inv s hreach
  have hmx : ¬(inCycle s.p1 ∧ inCycle s.p2) := by
    rintro ⟨c1, c2⟩
    exact absurd ((h1 c1).symm.trans (h2 c2)) (by decide)
  refine ⟨hmx, ?_, ?_⟩
  · intro c2
    by_contra hne
    push_neg at hne
    exact hmx ⟨⟨by omega, by omega⟩, c2⟩
  · intro c1
    by_contra hne
    push_neg at hne
    exact hmx ⟨c1, ⟨by omega, by omega⟩⟩

/-- Witness for C3: the mutual-exclusion clause at the initial state. -/
theorem collect_cycles_mutually_exclusive_witness :
    ¬(inCycle initState.p1 ∧ inCycle initState.p2) :=
  (collect_cycles_mutually_exclusive.2 initState Relation.ReflTransGen.refl).1

end PgExporter
